import Mathlib

/-
  Verification of the RentalLens inventory reconciliation and aggregation core.

  The definitions below are a shallow embedding of the TypeScript source:
    - the analysis-payload normaliser inlined in fetchScanDetails (detail screen),
    - the manual audit correction updateFoundCount (src/app/audit/report.tsx),
    - the room grouping groupDataByRoom (src/app/(tabs)/index.tsx and the identical
      copy in the property screen),
    - the audit report fold in generateAuditReportForSession,
    - the summary renderers (room list renderItem, PDF generator).
  JavaScript behaviour (truthiness, property reads, the + operator, thrown
  TypeErrors) is modelled explicitly; thrown exceptions become Option/Except
  failure values.  JSON numbers are modelled as integers: every numeric field in
  this application is an item count.
-/

namespace RentalLens

/-- JSON values as delivered by the database and the AI collaborator. -/
inductive JValue where
  | null
  | bool (b : Bool)
  | num (n : Int)
  | str (s : String)
  | arr (xs : List JValue)
  | obj (fields : List (String × JValue))

/-- JavaScript truthiness of a JSON value: null, false, 0 and the empty string are
falsy; every array and object (even empty) is truthy. -/
def jsTruthy : JValue → Bool
  | .null => false
  | .bool b => b
  | .num n => n != 0
  | .str s => s != ""
  | .arr _ => true
  | .obj _ => true

mutual

/-- JavaScript String() conversion of a JSON value (used by + when one operand is a
string): arrays join their elements with commas, plain objects display as
"[object Object]". -/
def jvDisplayString : JValue → String
  | .null => "null"
  | .bool true => "true"
  | .bool false => "false"
  | .num n => toString n
  | .str s => s
  | .arr xs => jvJoinList xs
  | .obj _ => "[object Object]"

/-- Array.prototype.join with the default comma separator. -/
def jvJoinList : List JValue → String
  | [] => ""
  | [x] => jvElemString x
  | x :: y :: rest => jvElemString x ++ "," ++ jvJoinList (y :: rest)

/-- Inside a join, null elements display as the empty string. -/
def jvElemString : JValue → String
  | .null => ""
  | v => jvDisplayString v

end

/-- Accumulator states of the JavaScript expression `sum + i.count` as it runs:
an exact number, NaN, or a string (once either operand was a string). -/
inductive JsSum where
  | num (n : Int)
  | nan
  | str (s : String)

/-- String() conversion of an accumulator state. -/
def jsSumToString : JsSum → String
  | .num n => toString n
  | .nan => "NaN"
  | .str s => s

/-- JavaScript `acc + v` where v is the value read from a field (none models
undefined, i.e. the field was missing): string operands concatenate, null coerces
to 0, booleans to 0/1, undefined poisons the sum to NaN, arrays and objects
coerce to their display strings. -/
def jsAdd (acc : JsSum) : Option JValue → JsSum
  | none =>
    match acc with
    | .str a => .str (a ++ "undefined")
    | _ => .nan
  | some v =>
    match acc, v with
    | .str a, w => .str (a ++ jvDisplayString w)
    | a, .str s => .str (jsSumToString a ++ s)
    | a, .arr xs => .str (jsSumToString a ++ jvDisplayString (.arr xs))
    | a, .obj fs => .str (jsSumToString a ++ jvDisplayString (.obj fs))
    | .nan, _ => .nan
    | .num a, .null => .num a
    | .num a, .bool b => .num (a + if b then 1 else 0)
    | .num a, .num n => .num (a + n)

/-- JavaScript property read `v.k` for the fixed keys this code uses ("count",
"items", "location"; none of them prototype members): reading from null throws a
TypeError (error), primitives and arrays yield undefined (none), objects look up
their own fields. -/
def jsMember : JValue → String → Except Unit (Option JValue)
  | .null, _ => .error ()
  | .obj fields, k => .ok (fields.lookup k)
  | _, _ => .ok none

/-- `items.reduce((sum, i) => sum + i.count, 0)` from the summary renderers; a null
item throws (error). -/
def sumCounts (xs : List JValue) : Except Unit JsSum :=
  xs.foldlM (fun acc i => (jsMember i "count").map (jsAdd acc)) (JsSum.num 0)

/-- The ai_analysis column as handed to the app by the persistence collaborator:
either a native (non-string) JSON value, or a JSON-encoded string.  A string input
is classified by whether JSON.parse accepts it; the decoded value is carried so the
parser itself (an external host builtin) need not be re-implemented. -/
inductive RawAnalysis where
  | value (v : JValue)
  | strOk (v : JValue)
  | strBad (s : String)

/-- The canonical shape every downstream consumer is supposed to see. The code
performs no per-item validation, so items are raw JSON values, and the location is
whatever (truthy) value the payload carried. -/
structure NormalizedAnalysis where
  items : List JValue
  location : JValue

/-- Shape dispatch of the normaliser (the body of fetchScanDetails after the string
case, src/unnamed/part_000 lines 64-76): a bare array is the item list; an object
contributes its items field when that is an array, and its location field when
present (`|| ''` replaces a falsy location by the empty string); anything else
yields the empty result. -/
def normalizeValue : JValue → NormalizedAnalysis
  | .arr xs => { items := xs, location := .str "" }
  | .obj fields =>
    { items :=
        match fields.lookup "items" with
        | some (.arr xs) => xs
        | _ => []
      location :=
        match fields.lookup "location" with
        | some v => if jsTruthy v then v else .str ""
        | none => .str "" }
  | _ => { items := [], location := .str "" }

/-- The analysis normaliser inlined in fetchScanDetails (src/unnamed/part_000 lines
51-80): a string payload is JSON.parsed once inside a try/catch (a failed parse is
logged and leaves the unparsed string, which then falls through every shape test to
the empty result); the resulting value goes through the shape dispatch. -/
def normalize : RawAnalysis → NormalizedAnalysis
  | .value v => normalizeValue v
  | .strOk v => normalizeValue v
  | .strBad _ => { items := [], location := .str "" }

/-- Per-item audit verdicts. -/
inductive AuditStatus where
  | Match
  | Mismatch
  | Missing
  deriving DecidableEq

/-- One audit outcome row as displayed by the audit report screen. -/
structure AuditResult where
  item : String
  expected_count : Nat
  found_count : Nat
  status : AuditStatus
  deriving DecidableEq

/-- The status ternary of updateFoundCount (src/app/audit/report.tsx lines 45-47):
`newCount === expected ? 'Match' : (newCount === 0 ? 'Missing' : 'Mismatch')`.
This is also the derivation rule of spec section 3. -/
def deriveStatus (expected found : Nat) : AuditStatus :=
  if found = expected then .Match else if found = 0 then .Missing else .Mismatch

/-- An inventory item of the canonical item list (counts are non-negative
integers per the data model). -/
structure InventoryItem where
  name : String
  count : Nat
  condition : String
  deriving DecidableEq

/-- Modelled from the spec: the reconciliation engine is missing from src/ — the
repository delegates reconciliation to the external AI service (`verifyInventory`
in src/unnamed/part_003 only embeds the expected list in a prompt and parses the
AI's JSON reply), so no in-repo code computes outcomes from an expected and a
found list.  Spec section 4.2: pair entries by exact case-sensitive name equality;
for each expected entry, foundCount is the count of the first found entry with an
identical name, or 0 when none exists; the output preserves the order of expected;
found-only items are not surfaced; status per section 3. -/
def reconcile (expected found : List InventoryItem) : List AuditResult :=
  expected.map fun e =>
    let fc : Nat :=
      match found.find? (fun f => f.name == e.name) with
      | some f => f.count
      | none => 0
    { item := e.name
      expected_count := e.count
      found_count := fc
      status := deriveStatus e.count fc }

/-- updateFoundCount from src/app/audit/report.tsx lines 42-50, value level:
`[...results]` copies the list, then `newResults[index].found_count` throws a
TypeError when the index is out of range (none); in range, the entry receives the
clamped count `Math.max(0, found_count + change)` and the recomputed status.  The
sharing of the entry objects with the input list is modelled separately by
updateFoundCountHeap. -/
def updateFoundCount (results : List AuditResult) (index : Nat) (change : Int) :
    Option (List AuditResult) :=
  match results[index]? with
  | none => none
  | some r =>
    let newCount : Nat := ((r.found_count : Int) + change).toNat
    some (results.set index
      { r with found_count := newCount, status := deriveStatus r.expected_count newCount })

/-- A stream of manual corrections as fired by the audit UI buttons; a call that
throws leaves the React state unchanged (setResults is never reached). -/
def applyAdjustments (results : List AuditResult) (steps : List (Nat × Int)) :
    List AuditResult :=
  steps.foldl (fun st step => (updateFoundCount st step.1 step.2).getD st) results

/-- The spec section 3 invariant on one outcome: Match iff found = expected,
Missing iff found = 0 and expected > 0, Mismatch in every other case. -/
def statusInvariant (o : AuditResult) : Prop :=
  (o.status = .Match ↔ o.found_count = o.expected_count) ∧
  (o.status = .Missing ↔ (o.found_count = 0 ∧ 0 < o.expected_count)) ∧
  (o.status = .Mismatch ↔
    (o.found_count ≠ o.expected_count ∧ ¬(o.found_count = 0 ∧ 0 < o.expected_count)))

/-- Heap-level model of updateFoundCount: the UI holds an array of references into
a store of outcome objects; `[...results]` copies only the reference list, and the
assignments `newResults[index].found_count = ...; newResults[index].status = ...`
write through the shared reference. -/
def updateFoundCountHeap (store : Nat → AuditResult) (refs : List Nat) (index : Nat)
    (change : Int) : Option ((Nat → AuditResult) × List Nat) :=
  match refs[index]? with
  | none => none
  | some ref =>
    let r := store ref
    let newCount : Nat := ((r.found_count : Int) + change).toNat
    some (Function.update store ref
      { r with found_count := newCount, status := deriveStatus r.expected_count newCount },
      refs)

/-- The outcome values a holder of a given reference list observes in a store. -/
def derefList (store : Nat → AuditResult) (refs : List Nat) : List AuditResult :=
  refs.map store

/-- A scans-table row (Snapshot) as read by the grouping and report code. -/
structure Snapshot where
  id : String
  created_at : String
  room_name : String
  status : String
  image_path : String
  ai_analysis : RawAnalysis

/-- String.prototype.trim: strip leading and trailing whitespace. -/
def jsTrim (s : String) : String :=
  String.mk (((s.data.dropWhile Char.isWhitespace).reverse.dropWhile Char.isWhitespace).reverse)

/-- `(item.room_name || 'Unassigned').trim()` — the empty string is the only falsy
string a text column can hold. -/
def roomKey (s : Snapshot) : String :=
  jsTrim (if s.room_name = "" then "Unassigned" else s.room_name)

/-- Own properties of Object.prototype.  The grouping dictionary is a plain object
literal, so for these room keys the guard `if (!groups[room])` sees the inherited
(truthy, non-array) prototype member and `groups[room].push(item)` then throws a
TypeError. -/
def objectProtoProps : List String :=
  ["constructor", "hasOwnProperty", "isPrototypeOf", "propertyIsEnumerable",
   "toLocaleString", "toString", "valueOf", "__proto__",
   "__defineGetter__", "__defineSetter__", "__lookupGetter__", "__lookupSetter__"]

/-- Push a value onto the bucket of a key, appending a new bucket at the end when
the key is absent — JS own-key insertion order for the grouping dictionaries and
for the reportRooms array with its Array.find lookup. -/
def bucketPush {α : Type} (groups : List (String × List α)) (k : String) (v : α) :
    List (String × List α) :=
  match groups with
  | [] => [(k, [v])]
  | (k', vs) :: rest =>
    if k' = k then (k', vs ++ [v]) :: rest else (k', vs) :: bucketPush rest k v

/-- One insertion step of a sort ascending by key. -/
def insortKey {α : Type} (x : String × α) : List (String × α) → List (String × α)
  | [] => [x]
  | y :: rest => if x.1 ≤ y.1 then x :: y :: rest else y :: insortKey x rest

/-- `Object.keys(groups).sort().map(room => ...)`: ascending lexicographic
comparison of the exact key strings.  The keys of the association list are
distinct, so sorting the pairs by key agrees with sorting the keys and looking
each one up. -/
def sortByKey {α : Type} (l : List (String × α)) : List (String × α) :=
  l.foldr insortKey []

/-- One room section of the grouped inventory list. -/
structure RoomSection where
  title : String
  data : List Snapshot

/-- The forEach loop of groupDataByRoom: none models the TypeError raised when a
trimmed room key names an Object.prototype member (the key is then never an own
key, and the inherited member has no push method). -/
def buildRoomGroups : List (String × List Snapshot) → List Snapshot →
    Option (List (String × List Snapshot))
  | groups, [] => some groups
  | groups, s :: rest =>
    let k := roomKey s
    if (groups.lookup k).isNone && objectProtoProps.contains k then none
    else buildRoomGroups (bucketPush groups k s) rest

/-- groupDataByRoom from src/app/(tabs)/index.tsx lines 27-47 (an identical copy
sits in the property screen, src/unnamed/part_000 lines 642-650): group the
snapshots by trimmed room name in a plain-object dictionary, then emit the
sections sorted ascending by title. -/
def groupDataByRoom (data : List Snapshot) : Option (List RoomSection) :=
  (buildRoomGroups [] data).map fun groups =>
    (sortByKey groups).map fun g => { title := g.1, data := g.2 }

/-- An audit_records row for one re-photographed snapshot of a session. -/
structure AuditRecord where
  session_id : String
  original_scan_id : String
  audit_image_path : String
  comparison_json : JValue

/-- One scan entry of the audit report tree. -/
structure ScanEntry where
  scanName : JValue
  originalImageUri : String
  auditImageUri : String
  results : JValue

/-- `scans.find(s => s.id === record.original_scan_id)`. -/
def findScan (scans : List Snapshot) (record : AuditRecord) : Option Snapshot :=
  scans.find? (fun s => s.id == record.original_scan_id)

/-- `matchingScan?.room_name || 'Unknown Room'`. -/
def recordRoomName (scans : List Snapshot) (record : AuditRecord) : String :=
  match findScan scans record with
  | some sc => if sc.room_name = "" then "Unknown Room" else sc.room_name
  | none => "Unknown Room"

/-- `Array.isArray(analysis) ? 'Scan' : (analysis?.location || 'Scan')` where
analysis is the raw (undecoded) ai_analysis of the resolved snapshot, or undefined
when the record is unresolved. -/
def recordScanName (scans : List Snapshot) (record : AuditRecord) : JValue :=
  match findScan scans record with
  | none => .str "Scan"
  | some sc =>
    match sc.ai_analysis with
    | .value (.obj fields) =>
      match fields.lookup "location" with
      | some v => if jsTruthy v then v else .str "Scan"
      | none => .str "Scan"
    | _ => .str "Scan"

/-- `record.comparison_json || []`. -/
def recordResults (record : AuditRecord) : JValue :=
  if jsTruthy record.comparison_json then record.comparison_json else .arr []

/-- The scan entry pushed for one record; publicUrl stands for the external
storage collaborator's getPublicUrl. -/
def recordEntry (publicUrl : String → String) (scans : List Snapshot)
    (record : AuditRecord) : ScanEntry :=
  { scanName := recordScanName scans record
    originalImageUri :=
      match findScan scans record with
      | some sc => publicUrl sc.image_path
      | none => ""
    auditImageUri := publicUrl record.audit_image_path
    results := recordResults record }

/-- The records.forEach fold of generateAuditReportForSession (src/unnamed/part_000
lines 586-605): one scan entry per record, pushed into the room bucket found by
Array.find over the reportRooms array (first-seen room order, no prototype hazard
since reportRooms is an array). -/
def buildAuditReport (publicUrl : String → String) (scans : List Snapshot)
    (records : List AuditRecord) : List (String × List ScanEntry) :=
  records.foldl
    (fun rooms record =>
      bucketPush rooms (recordRoomName scans record) (recordEntry publicUrl scans record))
    []

/-- Total number of scan entries across all room buckets of a report. -/
def sumScanCounts (rooms : List (String × List ScanEntry)) : Nat :=
  (rooms.map fun r => r.2.length).sum

/-- What the room-list card displays for one snapshot. -/
structure SummaryView where
  totalItems : JsSum
  location : JValue

/-- renderItem summary logic (src/app/(tabs)/index.tsx lines 86-100; identical copy
at src/unnamed/part_000 lines 746-757): dispatch on the shape of the raw
ai_analysis without ever decoding a string payload; a null element inside an items
array throws (error). -/
def summaryView : RawAnalysis → Except Unit SummaryView
  | .value (.arr xs) =>
    (sumCounts xs).map fun t => { totalItems := t, location := .str "" }
  | .value (.obj fields) =>
    let t : Except Unit JsSum :=
      match fields.lookup "items" with
      | some (.arr xs) => sumCounts xs
      | _ => .ok (.num 0)
    t.map fun tv =>
      { totalItems := tv
        location :=
          match fields.lookup "location" with
          | some v => if jsTruthy v then v else .str ""
          | none => .str "" }
  | _ => .ok { totalItems := .num 0, location := .str "" }

/-- The item-list extraction of the PDF generator (src/unnamed/part_001 lines
38-48): a bare array, or the items array of a wrapped object; anything else —
including a still-encoded JSON string — yields no items. -/
def pdfItems : RawAnalysis → List JValue
  | .value (.arr xs) => xs
  | .value (.obj fields) =>
    match fields.lookup "items" with
    | some (.arr xs) => xs
    | _ => []
  | _ => []

/-- `(item.ai_analysis && item.ai_analysis.location) ? item.ai_analysis.location : ''`
of the PDF generator. -/
def pdfLocation : RawAnalysis → JValue
  | .value (.obj fields) =>
    match fields.lookup "location" with
    | some v => if jsTruthy v then v else .str ""
    | none => .str ""
  | _ => .str ""

/-- The PDF renders the no-items placeholder exactly when the parsed item list is
empty. -/
def pdfShowsPlaceholder (a : RawAnalysis) : Bool :=
  (pdfItems a).isEmpty

/- Concrete instances used by the witness and counterexample theorems below. -/

/-- A wrapped payload whose items field is not an array but whose location is a
non-empty string. -/
def malformedWrapped : RawAnalysis :=
  .value (.obj [("items", .num 7), ("location", .str "East Wall")])

/-- An item object with no count and no condition field. -/
def sofaItem : JValue :=
  .obj [("name", .str "Sofa")]

/-- An outcome store holding one matched chair outcome in every cell. -/
def exStore : Nat → AuditResult :=
  fun _ => { item := "Chair", expected_count := 4, found_count := 4, status := .Match }

/-- The heap returned by adjusting the chair outcome down by one. -/
def exHeapOut : (Nat → AuditResult) × List Nat :=
  (updateFoundCountHeap exStore [0] 0 (-1)).getD (exStore, [])

/-- A single matched outcome row. -/
def wOutcome : AuditResult :=
  { item := "Chair", expected_count := 4, found_count := 4, status := .Match }

/-- A one-row outcome list in the Mismatch state of spec scenario 3. -/
def wRes : List AuditResult :=
  [{ item := "Lamp", expected_count := 2, found_count := 1, status := .Mismatch }]

/-- The row of wRes before adjustment. -/
def wPrev : AuditResult :=
  { item := "Lamp", expected_count := 2, found_count := 1, status := .Mismatch }

/-- The row of wRes after the +1 adjustment of spec scenario 3. -/
def wCur : AuditResult :=
  { item := "Lamp", expected_count := 2, found_count := 2, status := .Match }

/-- A snapshot whose room name is an Object.prototype member name. -/
def protoRoomSnap : Snapshot :=
  { id := "s1", created_at := "2024-01-01", room_name := "toString",
    status := "complete", image_path := "rooms/s1.jpg", ai_analysis := .value (.arr []) }

/-- An audit record whose originating snapshot is absent from the scans list. -/
def wRec : AuditRecord :=
  { session_id := "sess1", original_scan_id := "missing-scan",
    audit_image_path := "audits/a1.jpg", comparison_json := .null }

/- Helper lemmas. -/

/-- Any outcome built with deriveStatus satisfies the section 3 invariant. -/
theorem statusInvariant_derive (name : String) (ec fc : Nat) :
    statusInvariant
      { item := name, expected_count := ec, found_count := fc, status := deriveStatus ec fc } := by
  unfold statusInvariant deriveStatus
  by_cases h1 : fc = ec
  · subst h1
    simp
  · by_cases h2 : fc = 0
    · subst h2
      simp [h1]
      omega
    · simp [h1, h2]

/-- Every outcome produced by the (spec-modelled) reconciliation satisfies the
invariant. -/
theorem statusInvariant_reconcile (expected found : List InventoryItem) :
    ∀ o ∈ reconcile expected found, statusInvariant o := by
  intro o ho
  obtain ⟨e, _, rfl⟩ := List.mem_map.mp ho
  exact statusInvariant_derive e.name e.count _

/-- One manual adjustment step (including a throwing one, which leaves the state
unchanged) preserves the invariant on every row. -/
theorem statusInvariant_step (l : List AuditResult) (i : Nat) (c : Int)
    (h : ∀ o ∈ l, statusInvariant o) :
    ∀ o ∈ (updateFoundCount l i c).getD l, statusInvariant o := by
  unfold updateFoundCount
  cases hr : l[i]? with
  | none => simpa using h
  | some r =>
    intro o ho
    simp only [Option.getD_some] at ho
    rcases List.mem_or_eq_of_mem_set ho with hmem | rfl
    · exact h o hmem
    · exact statusInvariant_derive r.item r.expected_count _

/- Claim theorems. -/

/-- Claim C1: every audit outcome — whether produced by the (spec-modelled)
reconciliation or reached from it by any stream of manual found-count
adjustments — satisfies the status rule: Match iff found = expected, Missing iff
found = 0 and expected > 0, Mismatch in every other case. -/
theorem reconcile_adjust_statusInvariant (expected found : List InventoryItem)
    (steps : List (Nat × Int)) :
    ∀ o ∈ applyAdjustments (reconcile expected found) steps, statusInvariant o := by
  unfold applyAdjustments
  generalize hstart : reconcile expected found = start
  have hbase : ∀ o ∈ start, statusInvariant o := by
    rw [← hstart]; exact statusInvariant_reconcile expected found
  clear hstart
  induction steps generalizing start with
  | nil => simpa using hbase
  | cons step rest ih =>
    simp only [List.foldl_cons]
    exact ih _ (statusInvariant_step start step.1 step.2 hbase)

/-- Witness for C1 at spec scenario 3: reconcile one expected lamp (2) against one
found lamp (1), then adjust by +1; the surviving outcome is the matched lamp row
and it satisfies the invariant. -/
theorem reconcile_adjust_statusInvariant_witness : statusInvariant wCur :=
  reconcile_adjust_statusInvariant
    [{ name := "Lamp", count := 2, condition := "Good" }]
    [{ name := "Lamp", count := 1, condition := "Good" }]
    [(0, 1)] wCur (by decide)

/-- Auxiliary: find? returns the head match when everything before it fails the
predicate. -/
theorem find?_first {α : Type} (p : α → Bool) (pre : List α) (x : α) (rest : List α)
    (hpre : ∀ y ∈ pre, p y = false) (hx : p x = true) :
    List.find? p (pre ++ x :: rest) = some x := by
  induction pre with
  | nil => simpa using List.find?_cons_of_pos rest hx
  | cons a l ih =>
    have ha : p a = false := hpre a (by simp)
    rw [List.cons_append, List.find?_cons_of_neg _ (by simp [ha])]
    exact ih fun y hy => hpre y (by simp [hy])

/-- Auxiliary: removing an element that fails the predicate does not change
find?. -/
theorem find?_skip {α : Type} (p : α → Bool) (pre : List α) (g : α) (rest : List α)
    (hg : p g = false) :
    List.find? p (pre ++ g :: rest) = List.find? p (pre ++ rest) := by
  induction pre with
  | nil => simpa using List.find?_cons_of_neg rest (by simp [hg])
  | cons a l ih =>
    by_cases hp : p a = true
    · rw [List.cons_append, List.find?_cons_of_pos _ hp,
        List.cons_append, List.find?_cons_of_pos _ hp]
    · rw [List.cons_append, List.find?_cons_of_neg _ (by simpa using hp),
        List.cons_append, List.find?_cons_of_neg _ (by simpa using hp)]
      exact ih

/-- Claim C2: the (spec-modelled) reconciliation yields exactly one outcome per
expected entry, in the order of the expected list; each outcome carries the count
of the first case-sensitively identical found entry (0 when none matches); and a
found entry whose name appears nowhere in the expected list contributes nothing
to the result. -/
theorem reconcile_per_expected (expected found : List InventoryItem) :
    (reconcile expected found).length = expected.length ∧
    (∀ (i : Nat) (e : InventoryItem) (o : AuditResult),
      expected[i]? = some e → (reconcile expected found)[i]? = some o →
      o.item = e.name ∧ o.expected_count = e.count ∧
      ((∀ f ∈ found, f.name ≠ e.name) → o.found_count = 0) ∧
      (∀ (pre : List InventoryItem) (f : InventoryItem) (rest : List InventoryItem),
        found = pre ++ f :: rest → f.name = e.name →
        (∀ g ∈ pre, g.name ≠ e.name) → o.found_count = f.count)) ∧
    (∀ (pre : List InventoryItem) (g : InventoryItem) (rest : List InventoryItem),
      (∀ e ∈ expected, e.name ≠ g.name) →
      reconcile expected (pre ++ g :: rest) = reconcile expected (pre ++ rest)) := by
  refine ⟨by simp [reconcile], ?_, ?_⟩
  · intro i e o he ho
    rw [reconcile, List.getElem?_map, he, Option.map_some'] at ho
    have ho' := (Option.some.inj ho).symm
    subst ho'
    refine ⟨rfl, rfl, ?_, ?_⟩
    · intro hnone
      have : found.find? (fun f => f.name == e.name) = none :=
        List.find?_eq_none.mpr fun y hy => by simpa using hnone y hy
      simp [this]
    · intro pre f rest hsplit hf hpre
      have : found.find? (fun f => f.name == e.name) = some f := by
        rw [hsplit]
        exact find?_first _ pre f rest
          (fun y hy => by simpa using hpre y hy) (by simpa using hf)
      simp [this]
  · intro pre g rest hg
    unfold reconcile
    refine List.map_congr_left fun e he => ?_
    have : List.find? (fun f => f.name == e.name) (pre ++ g :: rest) =
        List.find? (fun f => f.name == e.name) (pre ++ rest) :=
      find?_skip _ pre g rest (by simpa using (hg e he).symm)
    rw [this]

/-- Witness for C2: one expected chair against a found list whose first chair entry
has count 9 — the single outcome carries foundCount 9 even though a later chair
entry has count 2 and a lamp entry is ignored. -/
theorem reconcile_per_expected_witness :
    (reconcile [{ name := "Chair", count := 4, condition := "Good" }]
      [{ name := "Lamp", count := 1, condition := "Good" },
       { name := "Chair", count := 9, condition := "Worn" },
       { name := "Chair", count := 2, condition := "Good" }]).length = 1 ∧
    ({ item := "Chair", expected_count := 4, found_count := 9,
        status := .Mismatch } : AuditResult).found_count = 9 := by
  have h := reconcile_per_expected
    [{ name := "Chair", count := 4, condition := "Good" }]
    [{ name := "Lamp", count := 1, condition := "Good" },
     { name := "Chair", count := 9, condition := "Worn" },
     { name := "Chair", count := 2, condition := "Good" }]
  refine ⟨h.1, ?_⟩
  exact (h.2.1 0 { name := "Chair", count := 4, condition := "Good" }
      { item := "Chair", expected_count := 4, found_count := 9, status := .Mismatch }
      (by decide) (by decide)).2.2.2
    [{ name := "Lamp", count := 1, condition := "Good" }]
    { name := "Chair", count := 9, condition := "Worn" }
    [{ name := "Chair", count := 2, condition := "Good" }]
    rfl rfl (by decide)

/-- Claim C3 counterexample: an object whose items field is not an array does not
normalize to exactly the empty result — the code still surfaces the location
field, so normalize of a wrapped payload with items 7 and location "East Wall"
returns an empty item list together with location "East Wall". -/
theorem normalize_malformed_cex :
    normalize malformedWrapped ≠ { items := [], location := .str "" } := by
  intro h
  have hl : (normalize malformedWrapped).location = JValue.str "" := by rw [h]
  have he : (normalize malformedWrapped).location = JValue.str "East Wall" := rfl
  rw [he] at hl
  injection hl with hs
  exact absurd hs (by decide)

/-- Claim C3 amended: normalize is total by construction and yields exactly the
empty result for every unparsable string, for null, and for every other
non-object non-array value; for an object whose items field is missing or not an
array the item list is empty, but the location may still be taken from the
object, so the full result need not be the empty one. -/
theorem normalize_total_amended :
    (∀ s, normalize (.strBad s) = { items := [], location := .str "" }) ∧
    normalize (.value .null) = { items := [], location := .str "" } ∧
    (∀ b, normalize (.value (.bool b)) = { items := [], location := .str "" }) ∧
    (∀ n, normalize (.value (.num n)) = { items := [], location := .str "" }) ∧
    (∀ s, normalize (.value (.str s)) = { items := [], location := .str "" }) ∧
    (∀ fields, (∀ xs, fields.lookup "items" ≠ some (.arr xs)) →
      (normalize (.value (.obj fields))).items = []) := by
  refine ⟨fun s => rfl, rfl, fun b => rfl, fun n => rfl, fun s => rfl, fun fields h => ?_⟩
  show (normalizeValue (.obj fields)).items = []
  unfold normalizeValue
  cases hl : fields.lookup "items" with
  | none => simp [hl]
  | some v =>
    cases v with
    | arr xs => exact absurd hl (h xs)
    | null => simp [hl]
    | bool b => simp [hl]
    | num n => simp [hl]
    | str s => simp [hl]
    | obj fs => simp [hl]

/-- Witness for the amended C3: an unparsable string normalizes to the exact empty
result, and a wrapped object without an items array keeps an empty item list. -/
theorem normalize_total_amended_witness :
    normalize (.strBad "not json") = { items := [], location := .str "" } ∧
    (normalize (.value (.obj [("location", .str "East Wall")]))).items = [] := by
  refine ⟨normalize_total_amended.1 "not json",
    normalize_total_amended.2.2.2.2.2 [("location", .str "East Wall")] ?_⟩
  intro xs h
  have hl : List.lookup "items" [("location", JValue.str "East Wall")] =
      (none : Option JValue) := rfl
  rw [hl] at h
  exact Option.noConfusion h

/-- Claim C9 counterexample: an item arriving without a count field is passed
through by the normaliser with the field still missing — reading its count yields
undefined (none), not the coerced 0 the claim requires. -/
theorem normalize_no_coercion_cex :
    (normalize (.value (.arr [sofaItem]))).items = [sofaItem] ∧
    jsMember sofaItem "count" = .ok none ∧
    (Except.ok (none : Option JValue) : Except Unit (Option JValue)) ≠
      .ok (some (.num 0)) :=
  ⟨rfl, rfl, fun h => Option.noConfusion (Except.ok.inj h)⟩

/-- Claim C9 amended: every accepted items array is passed through verbatim — the
output item list is the input one, so the row count is preserved — but no
per-item coercion of name, count or condition takes place (missing fields stay
missing, as the counterexample shows). -/
theorem normalize_items_verbatim (xs : List JValue) (fields : List (String × JValue))
    (h : fields.lookup "items" = some (.arr xs)) :
    (normalize (.value (.arr xs))).items = xs ∧
    (normalize (.strOk (.arr xs))).items = xs ∧
    (normalize (.value (.obj fields))).items = xs ∧
    (normalize (.value (.arr xs))).items.length = xs.length := by
  refine ⟨rfl, rfl, ?_, rfl⟩
  show (normalizeValue (.obj fields)).items = xs
  unfold normalizeValue
  simp [h]

/-- Witness for the amended C9 at the one-item sofa payload. -/
theorem normalize_items_verbatim_witness :
    (normalize (.value (.arr [sofaItem]))).items = [sofaItem] ∧
    (normalize (.strOk (.arr [sofaItem]))).items = [sofaItem] ∧
    (normalize (.value (.obj [("items", .arr [sofaItem])]))).items = [sofaItem] ∧
    (normalize (.value (.arr [sofaItem]))).items.length = [sofaItem].length :=
  normalize_items_verbatim [sofaItem] [("items", .arr [sofaItem])] rfl

/-- Claim C10: a still-encoded string analysis is not decoded by the room-list
summary renderer or the PDF generator — the summary shows total 0 with empty
location and the PDF takes no items (hence renders its placeholder) — while the
detail screen's parser decodes the string form and uses the decoded items. -/
theorem stringAnalysis_not_decoded (v : JValue) (s : String)
    (fields : List (String × JValue)) (xs : List JValue)
    (h : fields.lookup "items" = some (.arr xs)) :
    summaryView (.strOk v) = .ok { totalItems := .num 0, location := .str "" } ∧
    summaryView (.strBad s) = .ok { totalItems := .num 0, location := .str "" } ∧
    pdfItems (.strOk v) = [] ∧
    pdfItems (.strBad s) = [] ∧
    pdfShowsPlaceholder (.strOk v) = true ∧
    pdfShowsPlaceholder (.strBad s) = true ∧
    pdfLocation (.strOk v) = .str "" ∧
    normalize (.strOk (.obj fields)) = normalizeValue (.obj fields) ∧
    (normalize (.strOk (.obj fields))).items = xs := by
  refine ⟨rfl, rfl, rfl, rfl, rfl, rfl, rfl, rfl, ?_⟩
  show (normalizeValue (.obj fields)).items = xs
  unfold normalizeValue
  simp [h]

/-- Witness for C10 at a wrapped one-item payload arriving as an encoded string. -/
theorem stringAnalysis_not_decoded_witness :
    summaryView (.strOk (.obj [("items", .arr [sofaItem])])) =
      .ok { totalItems := .num 0, location := .str "" } ∧
    pdfItems (.strOk (.obj [("items", .arr [sofaItem])])) = [] ∧
    (normalize (.strOk (.obj [("items", .arr [sofaItem])]))).items = [sofaItem] := by
  have h := stringAnalysis_not_decoded (.obj [("items", .arr [sofaItem])]) "x"
    [("items", .arr [sofaItem])] [sofaItem] rfl
  exact ⟨h.1, h.2.2.1, h.2.2.2.2.2.2.2.2⟩

/-- Claim C4: for an in-range index, updateFoundCount succeeds and returns a list
whose adjusted entry carries the clamped count max(0, found + delta) — never
negative, saturating at zero for any net non-positive count — with the status
recomputed by the section 3 rule, and with every other entry unchanged. -/
theorem updateFoundCount_inrange (results : List AuditResult) (index : Nat)
    (change : Int) (prev : AuditResult) (hp : results[index]? = some prev) :
    ∃ out, updateFoundCount results index change = some out ∧
      out.length = results.length ∧
      (∀ j, j ≠ index → out[j]? = results[j]?) ∧
      ∃ cur, out[index]? = some cur ∧
        cur.item = prev.item ∧
        cur.expected_count = prev.expected_count ∧
        (cur.found_count : Int) = max 0 ((prev.found_count : Int) + change) ∧
        ((prev.found_count : Int) + change ≤ 0 → cur.found_count = 0) ∧
        statusInvariant cur := by
  have hlen : index < results.length := (List.getElem?_eq_some.mp hp).1
  refine ⟨_, by rw [updateFoundCount, hp], by simp, ?_, ?_⟩
  · intro j hj
    exact List.getElem?_set_ne fun hh => hj hh.symm
  · refine ⟨{ prev with
        found_count := ((prev.found_count : Int) + change).toNat,
        status := deriveStatus prev.expected_count
          ((prev.found_count : Int) + change).toNat },
      ?_, rfl, rfl, ?_, ?_, ?_⟩
    · simp [List.getElem?_set, hlen]
    · rw [Int.toNat_eq_max, max_comm]
    · intro hle
      exact Int.toNat_of_nonpos hle
    · exact statusInvariant_derive prev.item prev.expected_count _

/-- Witness for C4 at spec scenario 3: adjusting the mismatched lamp row by +1
yields the matched lamp row, and that row satisfies the status invariant. -/
theorem updateFoundCount_inrange_witness :
    updateFoundCount wRes 0 1 = some [wCur] ∧ statusInvariant wCur := by
  obtain ⟨out, hout, _, _, cur, hcur, _, _, _, _, hinv⟩ :=
    updateFoundCount_inrange wRes 0 1 wPrev (by decide)
  have h1 : out = [wCur] := by
    have : some out = some [wCur] := by rw [← hout]; decide
    exact Option.some.inj this
  subst h1
  have h2 : cur = wCur := by
    have : some wCur = some cur := by rw [← hcur]; decide
    exact (Option.some.inj this).symm
  subst h2
  exact ⟨hout, hinv⟩

/-- Claim C6 counterexample: index 1 lies outside a one-element outcome list; the
adjustment throws a TypeError (none) instead of returning the list unchanged. -/
theorem updateFoundCount_oob_cex :
    updateFoundCount [wOutcome] 1 1 = none ∧
    updateFoundCount [wOutcome] 1 1 ≠ some [wOutcome] := by decide

/-- Claim C6 amended: an out-of-range index is a failure, not a no-op — reading
found_count of the undefined entry throws a TypeError (modelled as none), so the
input list is never returned; only the surrounding UI keeps indices in range. -/
theorem updateFoundCount_oob (results : List AuditResult) (index : Nat)
    (change : Int) (h : results.length ≤ index) :
    updateFoundCount results index change = none := by
  unfold updateFoundCount
  rw [List.getElem?_eq_none h]

/-- Witness for the amended C6. -/
theorem updateFoundCount_oob_witness : updateFoundCount [wOutcome] 2 (-1) = none :=
  updateFoundCount_oob [wOutcome] 2 (-1) (by decide)

/-- Auxiliary: pointwise update of a store seen through a duplicate-free reference
list is the positional update of the dereferenced list. -/
theorem map_update_of_nodup {α β : Type} [DecidableEq α] (f : α → β) (refs : List α)
    (index : Nat) (ref : α) (b : β) (hnd : refs.Nodup) (h : refs[index]? = some ref) :
    refs.map (Function.update f ref b) = (refs.map f).set index b := by
  induction refs generalizing index with
  | nil => simp at h
  | cons a l ih =>
    have hnotmem : a ∉ l := (List.nodup_cons.mp hnd).1
    cases index with
    | zero =>
      have ha : a = ref := by simpa using h
      subst ha
      simp only [List.map_cons, List.set_cons_zero]
      rw [Function.update_same]
      congr 1
      refine List.map_congr_left fun x hx => ?_
      refine Function.update_noteq (fun hxa => hnotmem ?_) b f
      rw [← hxa]
      exact hx
    | succ n =>
      have hl : l[n]? = some ref := by simpa using h
      have hmem : ref ∈ l := by
        obtain ⟨hlt, he⟩ := List.getElem?_eq_some.mp hl
        rw [← he]
        exact List.getElem_mem hlt
      simp only [List.map_cons, List.set_cons_succ]
      rw [Function.update_noteq (fun haf => hnotmem (by rw [haf]; exact hmem)) b f]
      congr 1
      exact ih n ((List.nodup_cons.mp hnd).2) hl

/-- Claim C5 counterexample: after an adjustment, the holder of the prior outcome
list observes a changed entry — dereferencing the old reference list through the
new store no longer yields the old values. -/
theorem updateFoundCountHeap_aliasing_cex :
    (updateFoundCountHeap exStore [0] 0 (-1)).map (fun p => derefList p.1 [0]) ≠
      some (derefList exStore [0]) := by decide

/-- Claim C5 amended: updateFoundCount returns a new list object but copies it
shallowly — the reference list it returns is the very same one, and the entry
objects are shared — so a holder of the prior list observes exactly the adjusted
values: dereferencing the old references through the new store gives the
value-level update of the old view. -/
theorem updateFoundCountHeap_shared (store : Nat → AuditResult) (refs : List Nat)
    (index : Nat) (change : Int) (out : (Nat → AuditResult) × List Nat)
    (hnd : refs.Nodup) (h : updateFoundCountHeap store refs index change = some out) :
    out.2 = refs ∧
    updateFoundCount (derefList store refs) index change = some (derefList out.1 refs) := by
  unfold updateFoundCountHeap at h
  cases hr : refs[index]? with
  | none => rw [hr] at h; exact Option.noConfusion h
  | some ref =>
    rw [hr] at h
    have hout := (Option.some.inj h).symm
    subst hout
    refine ⟨rfl, ?_⟩
    have hget : (derefList store refs)[index]? = some (store ref) := by
      rw [derefList, List.getElem?_map, hr, Option.map_some']
    rw [updateFoundCount, hget]
    rw [derefList, derefList]
    rw [map_update_of_nodup store refs index ref _ hnd hr]

/-- Witness for the amended C5: the chair outcome adjusted down by one; the old
reference list seen through the new store equals the value-level update. -/
theorem updateFoundCountHeap_shared_witness :
    exHeapOut.2 = [0] ∧
    updateFoundCount (derefList exStore [0]) 0 (-1) = some (derefList exHeapOut.1 [0]) :=
  updateFoundCountHeap_shared exStore [0] 0 (-1) exHeapOut (by decide) rfl

/-- Claim C7 (failing input): grouping a single snapshot whose room name is
"toString" produces no partition at all — the plain-object dictionary inherits
Object.prototype.toString, so the guard `if (!groups[room])` sees a truthy
non-array and `groups[room].push(item)` throws a TypeError (none). -/
theorem groupDataByRoom_proto_throws : groupDataByRoom [protoRoomSnap] = none := rfl

/-- Auxiliary: pushing one value into a bucket list adds exactly one to the total
entry count. -/
theorem bucketPush_sum {α : Type} (groups : List (String × List α)) (k : String) (v : α) :
    ((bucketPush groups k v).map fun r => r.2.length).sum =
      ((groups.map fun r => r.2.length).sum) + 1 := by
  induction groups with
  | nil => simp [bucketPush]
  | cons g rest ih =>
    obtain ⟨k', vs⟩ := g
    by_cases h : k' = k
    · simp only [bucketPush, if_pos h, List.map_cons, List.sum_cons, List.length_append,
        List.length_singleton]
      omega
    · simp only [bucketPush, if_neg h, List.map_cons, List.sum_cons, ih]
      omega

/-- Auxiliary: after a push, some bucket carries the pushed key and value. -/
theorem bucketPush_mem_new {α : Type} (groups : List (String × List α)) (k : String)
    (v : α) : ∃ b ∈ bucketPush groups k v, b.1 = k ∧ v ∈ b.2 := by
  induction groups with
  | nil => exact ⟨(k, [v]), by simp [bucketPush], rfl, by simp⟩
  | cons g rest ih =>
    obtain ⟨k', vs⟩ := g
    by_cases h : k' = k
    · refine ⟨(k', vs ++ [v]), ?_, h, by simp⟩
      simp only [bucketPush, if_pos h]
      exact List.mem_cons_self _ _
    · obtain ⟨b, hb, hk, hv⟩ := ih
      refine ⟨b, ?_, hk, hv⟩
      simp only [bucketPush, if_neg h]
      exact List.mem_cons_of_mem _ hb

/-- Auxiliary: a push never removes an existing bucket entry. -/
theorem bucketPush_mem_old {α : Type} (groups : List (String × List α)) (k : String)
    (v : α) (k0 : String) (x : α) (hx : ∃ b ∈ groups, b.1 = k0 ∧ x ∈ b.2) :
    ∃ b ∈ bucketPush groups k v, b.1 = k0 ∧ x ∈ b.2 := by
  induction groups with
  | nil => simp at hx
  | cons g rest ih =>
    obtain ⟨k', vs⟩ := g
    obtain ⟨b, hb, hk, hv⟩ := hx
    rcases List.mem_cons.mp hb with rfl | hbrest
    · by_cases h : k' = k
      · refine ⟨(k', vs ++ [v]), ?_, hk, by simp [hv]⟩
        simp only [bucketPush, if_pos h]
        exact List.mem_cons_self _ _
      · refine ⟨(k', vs), ?_, hk, hv⟩
        simp only [bucketPush, if_neg h]
        exact List.mem_cons_self _ _
    · by_cases h : k' = k
      · refine ⟨b, ?_, hk, hv⟩
        simp only [bucketPush, if_pos h]
        exact List.mem_cons_of_mem _ hbrest
      · obtain ⟨b', hb', hk', hv'⟩ := ih ⟨b, hbrest, hk, hv⟩
        refine ⟨b', ?_, hk', hv'⟩
        simp only [bucketPush, if_neg h]
        exact List.mem_cons_of_mem _ hb'

/-- Auxiliary: the report fold adds one scan entry per record to the total. -/
theorem buildAuditReport_sum_aux (publicUrl : String → String) (scans : List Snapshot) :
    ∀ (records : List AuditRecord) (groups : List (String × List ScanEntry)),
      sumScanCounts (records.foldl
        (fun rooms record =>
          bucketPush rooms (recordRoomName scans record) (recordEntry publicUrl scans record))
        groups) = sumScanCounts groups + records.length := by
  intro records
  induction records with
  | nil => intro groups; simp
  | cons r rest ih =>
    intro groups
    rw [List.foldl_cons, ih]
    unfold sumScanCounts
    rw [bucketPush_sum]
    simp only [List.length_cons]
    omega

/-- Auxiliary: the report fold never loses an existing bucket entry. -/
theorem buildAuditReport_keep_aux (publicUrl : String → String) (scans : List Snapshot) :
    ∀ (records : List AuditRecord) (groups : List (String × List ScanEntry))
      (k0 : String) (x : ScanEntry), (∃ b ∈ groups, b.1 = k0 ∧ x ∈ b.2) →
      ∃ b ∈ records.foldl
        (fun rooms record =>
          bucketPush rooms (recordRoomName scans record) (recordEntry publicUrl scans record))
        groups, b.1 = k0 ∧ x ∈ b.2 := by
  intro records
  induction records with
  | nil => intro groups k0 x hx; simpa using hx
  | cons r rest ih =>
    intro groups k0 x hx
    rw [List.foldl_cons]
    exact ih _ k0 x (bucketPush_mem_old _ _ _ k0 x hx)

/-- Auxiliary: every record's entry lands in the bucket named after its resolved
room. -/
theorem buildAuditReport_mem_aux (publicUrl : String → String) (scans : List Snapshot) :
    ∀ (records : List AuditRecord) (groups : List (String × List ScanEntry))
      (r : AuditRecord), r ∈ records →
      ∃ b ∈ records.foldl
        (fun rooms record =>
          bucketPush rooms (recordRoomName scans record) (recordEntry publicUrl scans record))
        groups, b.1 = recordRoomName scans r ∧ recordEntry publicUrl scans r ∈ b.2 := by
  intro records
  induction records with
  | nil => intro groups r hr; simp at hr
  | cons r0 rest ih =>
    intro groups r hr
    rw [List.foldl_cons]
    rcases List.mem_cons.mp hr with rfl | hrest
    · exact buildAuditReport_keep_aux publicUrl scans rest _ _ _
        (bucketPush_mem_new groups _ _)
    · exact ih _ r hrest

/-- Claim C8: buildAuditReport emits exactly one scan entry per input audit
record — the total across all room buckets equals the record count — and every
record's entry sits in the bucket of its resolved room name; a record whose
originalScanId matches no snapshot is never dropped: it resolves to the room
"Unknown Room" with scan name "Scan". -/
theorem buildAuditReport_preserves (publicUrl : String → String)
    (scans : List Snapshot) (records : List AuditRecord) :
    sumScanCounts (buildAuditReport publicUrl scans records) = records.length ∧
    (∀ r ∈ records, ∃ b ∈ buildAuditReport publicUrl scans records,
      b.1 = recordRoomName scans r ∧ recordEntry publicUrl scans r ∈ b.2) ∧
    (∀ r : AuditRecord, findScan scans r = none →
      recordRoomName scans r = "Unknown Room" ∧
      recordScanName scans r = .str "Scan") := by
  refine ⟨?_, ?_, ?_⟩
  · rw [buildAuditReport, buildAuditReport_sum_aux]
    simp [sumScanCounts]
  · intro r hr
    exact buildAuditReport_mem_aux publicUrl scans records [] r hr
  · intro r h
    unfold recordRoomName recordScanName
    rw [h]
    exact ⟨rfl, rfl⟩

/-- Witness for C8: one record whose originating snapshot is absent from an empty
scans list — the report still carries exactly its one entry, filed under
"Unknown Room" with scan name "Scan". -/
theorem buildAuditReport_preserves_witness :
    sumScanCounts (buildAuditReport id [] [wRec]) = 1 ∧
    (∃ b ∈ buildAuditReport id [] [wRec],
      b.1 = recordRoomName [] wRec ∧ recordEntry id [] wRec ∈ b.2) ∧
    recordRoomName [] wRec = "Unknown Room" ∧
    recordScanName [] wRec = .str "Scan" := by
  have h := buildAuditReport_preserves id [] [wRec]
  exact ⟨h.1, h.2.1 wRec (List.mem_singleton.mpr rfl), h.2.2 wRec rfl⟩

end RentalLens
